import Mathlib

/-!
Verification of the expense-router logic of `src/router/expenses.mjs`
(spendtrack-api).  The router's only non-trivial computation is the
day-grouping aggregation served by `GET /` (lines 35-49); the remaining
handlers are thin query/command glue whose decision logic (empty-result
checks, the at-least-one-field check of `PATCH /:id`, the ownership
filters, and the module-level current-month window) is embedded below as
plain functions.

Conventions of the embedding:
* timestamps are milliseconds since the Unix epoch, as `Nat` (the stored
  `date_of_expense` values are non-negative in this model);
* `toISOString().split('T')[0]` extracts the UTC calendar day, so the
  derived day key of a record is its timestamp divided by 86400000;
* a JavaScript object used as an accumulator keyed by non-numeric strings
  enumerates its keys in insertion order, so the accumulator is embedded
  as an association list whose new keys are appended at the end;
* `Array.prototype.sort` with the comparator of line 48 orders records
  descending by timestamp; being a stable comparison sort, it is embedded
  with `List.insertionSort` by the corresponding relation.
-/

namespace SpendTrack

/-- An expense document, with the fields the router reads.  The schema of
the `Expense` collection itself is outside this file's sources; the fields
below are the ones named by the data model (owner, category reference,
amount, name, date of expense). -/
structure Expense where
  eid : Nat
  user_id : Nat
  category_id : Nat
  expense_name : String
  amount : Int
  date_of_expense : Nat
deriving DecidableEq, Repr

/-- Milliseconds in one day. -/
def msPerDay : Nat := 86400000

/-- Line 36: `expense.date_of_expense.toISOString().split('T')[0]` — the
UTC calendar-day key of a record. -/
def dayKey (e : Expense) : Nat :=
  e.date_of_expense / msPerDay

/-- One accumulator cell of the reduce of lines 35-43:
`\x7b data_expenses: [], total_expense: 0 \x7d`. -/
structure Bucket where
  data_expenses : List Expense
  total_expense : Int
deriving DecidableEq, Repr

/-- One step of the reduce body (lines 36-42): find the cell of key `d`
(insertion order preserved), push the record and add its amount; append a
fresh cell at the end when the key is new. -/
def addToBucket (acc : List (Nat × Bucket)) (d : Nat) (e : Expense) :
    List (Nat × Bucket) :=
  match acc with
  | [] => [(d, ⟨[e], e.amount⟩)]
  | (k, b) :: rest =>
      if k = d then
        (k, ⟨b.data_expenses ++ [e], b.total_expense + e.amount⟩) :: rest
      else
        (k, b) :: addToBucket rest d e

/-- Lines 35-43: `expenses.reduce(..., \x7b\x7d)`. -/
def groupedExpenses (expenses : List Expense) : List (Nat × Bucket) :=
  expenses.foldl (fun acc e => addToBucket acc (dayKey e) e) []

/-- The comparator of line 48, `(a, b) => new Date(b.date_of_expense) -
new Date(a.date_of_expense)`: `a` comes before `b` when `a`'s timestamp is
at least `b`'s (descending order).  `Array.prototype.sort` is a stable
comparison sort; it is embedded below as a stable sort by this relation. -/
def dateGE (a b : Expense) : Prop :=
  b.date_of_expense ≤ a.date_of_expense

instance : DecidableRel dateGE :=
  fun a b => Nat.decLe b.date_of_expense a.date_of_expense

instance : IsTotal Expense dateGE :=
  ⟨fun a b => (Nat.le_total a.date_of_expense b.date_of_expense).symm⟩

instance : IsTrans Expense dateGE :=
  ⟨fun _ _ _ hab hbc => le_trans hbc hab⟩

/-- One element of the response array built on lines 45-49. -/
structure DayGroup where
  date_of_expenses : Nat
  total_expense : Int
  data_expenses : List Expense
deriving DecidableEq, Repr

/-- Lines 45-49: `Object.keys(groupedExpenses).map(date => (...))`, with
each bucket's records re-sorted descending by full timestamp. -/
def getAllData (expenses : List Expense) : List DayGroup :=
  (groupedExpenses expenses).map fun p =>
    ⟨p.1, p.2.total_expense, List.insertionSort dateGE p.2.data_expenses⟩

/-- The records of the input carrying a given day key, in input order. -/
def recordsOfDay (l : List Expense) (k : Nat) : List Expense :=
  l.filter fun e => dayKey e == k

/-- Arithmetic sum of the `amount` fields of a list of records. -/
def sumAmounts (l : List Expense) : Int :=
  (l.map Expense.amount).sum

/-- The distinct values of a list in first-seen order — the key
enumeration order of a JavaScript object accumulator with non-index
string keys. -/
def firstSeen : List Nat → List Nat
  | [] => []
  | k :: ks => k :: firstSeen (ks.filter fun x => x != k)
termination_by l => l.length
decreasing_by
  simp only [List.length_cons]
  exact Nat.lt_succ_of_le (List.length_filter_le _ _)

/-- Index of the first occurrence of a value in a list (length of the list
when the value is absent). -/
def firstIdx (k : Nat) : List Nat → Nat
  | [] => 0
  | x :: xs => if x = k then 0 else firstIdx k xs + 1

theorem mem_firstSeen (l : List Nat) (a : Nat) : a ∈ firstSeen l ↔ a ∈ l := by
  induction l using firstSeen.induct with
  | case1 => simp [firstSeen]
  | case2 k ks ih =>
      by_cases hak : a = k
      · subst hak; simp [firstSeen]
      · simp [firstSeen, ih, List.mem_filter, hak, bne_iff_ne]

theorem nodup_firstSeen (l : List Nat) : (firstSeen l).Nodup := by
  induction l using firstSeen.induct with
  | case1 => simp [firstSeen]
  | case2 k ks ih =>
      rw [firstSeen]
      refine List.nodup_cons.mpr ⟨?_, ih⟩
      intro hk
      have := (mem_firstSeen _ _).mp hk
      simp [List.mem_filter] at this

theorem firstSeen_append_singleton (xs : List Nat) (k : Nat) :
    firstSeen (xs ++ [k]) =
      if k ∈ xs then firstSeen xs else firstSeen xs ++ [k] := by
  induction xs using firstSeen.induct with
  | case1 => simp [firstSeen]
  | case2 a t ih =>
      by_cases hka : k = a
      · subst hka
        have hfil : (t ++ [k]).filter (fun x => x != k) =
            t.filter (fun x => x != k) := by
          simp [List.filter_append]
        simp only [List.cons_append, firstSeen, hfil, List.mem_cons]
        simp
      · have hfil : (t ++ [k]).filter (fun x => x != a) =
            t.filter (fun x => x != a) ++ [k] := by
          simp [List.filter_append, bne_iff_ne, hka]
        have hmem : k ∈ t.filter (fun x => x != a) ↔ k ∈ t := by
          simp [List.mem_filter, bne_iff_ne, hka]
        simp only [List.cons_append, firstSeen, hfil, ih, hmem, List.mem_cons]
        by_cases hkt : k ∈ t
        · simp [hkt, hka]
        · simp [hkt, hka]

/-- The canonical content of the accumulator cell of key `k` after the
whole input has been folded: the input's records of that day, in input
order, together with the sum of their amounts. -/
def canonBucket (l : List Expense) (k : Nat) : Bucket :=
  ⟨recordsOfDay l k, sumAmounts (recordsOfDay l k)⟩

theorem recordsOfDay_append_singleton (l : List Expense) (e : Expense) (k : Nat) :
    recordsOfDay (l ++ [e]) k =
      recordsOfDay l k ++ if dayKey e = k then [e] else [] := by
  by_cases h : dayKey e = k <;>
    simp [recordsOfDay, List.filter_append, h]

theorem recordsOfDay_eq_nil (l : List Expense) (k : Nat)
    (h : k ∉ l.map dayKey) : recordsOfDay l k = [] := by
  refine List.filter_eq_nil_iff.mpr ?_
  intro e he
  intro hk
  exact h (List.mem_map.mpr ⟨e, he, by simpa using hk⟩)

theorem sumAmounts_append_singleton (l : List Expense) (e : Expense) :
    sumAmounts (l ++ [e]) = sumAmounts l + e.amount := by
  simp [sumAmounts]

theorem addToBucket_of_not_mem (acc : List (Nat × Bucket)) (d : Nat)
    (e : Expense) (h : d ∉ acc.map Prod.fst) :
    addToBucket acc d e = acc ++ [(d, ⟨[e], e.amount⟩)] := by
  induction acc with
  | nil => rfl
  | cons p rest ih =>
      obtain ⟨k, b⟩ := p
      simp only [List.map_cons, List.mem_cons] at h
      push_neg at h
      rw [addToBucket, if_neg (by exact fun hkd => h.1 hkd.symm),
        ih h.2, List.cons_append]

theorem addToBucket_map_of_mem (K : List Nat) (F : Nat → Bucket) (d : Nat)
    (e : Expense) (hn : K.Nodup) (hd : d ∈ K) :
    addToBucket (K.map fun k => (k, F k)) d e =
      K.map fun k =>
        (k, if k = d then
              ⟨(F k).data_expenses ++ [e], (F k).total_expense + e.amount⟩
            else F k) := by
  induction K with
  | nil => cases hd
  | cons k0 K1 ih =>
      rw [List.nodup_cons] at hn
      by_cases hk : k0 = d
      · subst hk
        rw [List.map_cons, List.map_cons, addToBucket, if_pos rfl, if_pos rfl]
        congr 1
        refine List.map_congr_left ?_
        intro k hk1
        have : k ≠ k0 := fun h => hn.1 (h ▸ hk1)
        rw [if_neg this]
      · have hd1 : d ∈ K1 := by
          rcases List.mem_cons.mp hd with h | h
          · exact absurd h.symm hk
          · exact h
        rw [List.map_cons, List.map_cons, addToBucket, if_neg hk,
          ih hn.2 hd1, if_neg hk]

theorem groupedExpenses_append_singleton (l : List Expense) (e : Expense) :
    groupedExpenses (l ++ [e]) =
      addToBucket (groupedExpenses l) (dayKey e) e := by
  simp [groupedExpenses, List.foldl_append]

/-- Full characterization of the reduce of lines 35-43: the accumulator
holds one cell per distinct day key, in first-seen order, and the cell of
key `k` holds exactly the input's records of day `k` in input order
together with the sum of their amounts. -/
theorem groupedExpenses_eq (l : List Expense) :
    groupedExpenses l =
      (firstSeen (l.map dayKey)).map fun k => (k, canonBucket l k) := by
  induction l using List.reverseRecOn with
  | nil => simp [groupedExpenses, firstSeen]
  | append_singleton xs e ih =>
      rw [groupedExpenses_append_singleton, ih, List.map_append,
        List.map_singleton, firstSeen_append_singleton]
      by_cases hmem : dayKey e ∈ xs.map dayKey
      · rw [if_pos hmem,
          addToBucket_map_of_mem _ _ _ _ (nodup_firstSeen _)
            ((mem_firstSeen _ _).mpr hmem)]
        refine List.map_congr_left ?_
        intro k hk
        by_cases hkd : k = dayKey e
        · subst hkd
          simp [canonBucket, recordsOfDay_append_singleton,
            sumAmounts_append_singleton]
        · simp [canonBucket, recordsOfDay_append_singleton, hkd,
            Ne.symm hkd]
      · rw [if_neg hmem,
          addToBucket_of_not_mem _ _ _ (by
            rw [List.map_map]
            simpa using fun h => hmem ((mem_firstSeen _ _).mp h)),
          List.map_append, List.map_singleton]
        congr 1
        · refine List.map_congr_left ?_
          intro k hk
          have hkd : k ≠ dayKey e := by
            intro h
            exact hmem (h ▸ (mem_firstSeen _ _).mp hk)
          unfold canonBucket
          rw [recordsOfDay_append_singleton,
            if_neg (fun h => hkd h.symm), List.append_nil]
        · have hnil : recordsOfDay xs (dayKey e) = [] :=
            recordsOfDay_eq_nil _ _ hmem
          unfold canonBucket
          rw [recordsOfDay_append_singleton, if_pos rfl, hnil,
            List.nil_append]
          simp [sumAmounts]

/-- The response array of lines 45-49, computed from the characterized
accumulator: one entry per day key in first-seen order, carrying that
day's total and that day's records sorted descending by timestamp. -/
theorem getAllData_eq (l : List Expense) :
    getAllData l =
      (firstSeen (l.map dayKey)).map fun k =>
        ⟨k, sumAmounts (recordsOfDay l k),
          List.insertionSort dateGE (recordsOfDay l k)⟩ := by
  rw [getAllData, groupedExpenses_eq, List.map_map]
  rfl

theorem recordsOfDay_cons (e : Expense) (t : List Expense) (k : Nat) :
    recordsOfDay (e :: t) k =
      if dayKey e = k then e :: recordsOfDay t k else recordsOfDay t k := by
  by_cases h : dayKey e = k <;> simp [recordsOfDay, List.filter_cons, h]

theorem flatten_map_perm (K : List Nat) (f g : Nat → List Expense)
    (h : ∀ k ∈ K, (f k).Perm (g k)) :
    ((K.map f).flatten).Perm ((K.map g).flatten) := by
  induction K with
  | nil => exact List.Perm.refl _
  | cons k0 K1 ih =>
      simp only [List.map_cons, List.flatten_cons]
      exact (h k0 (List.mem_cons_self _ _)).append
        (ih fun k hk => h k (List.mem_cons_of_mem _ hk))

theorem flatten_recordsOfDay_cons (e : Expense) (t : List Expense)
    (K : List Nat) (hn : K.Nodup) (hd : dayKey e ∈ K) :
    ((K.map (recordsOfDay (e :: t))).flatten).Perm
      (e :: (K.map (recordsOfDay t)).flatten) := by
  induction K with
  | nil => cases hd
  | cons k0 K1 ih =>
      rw [List.nodup_cons] at hn
      simp only [List.map_cons, List.flatten_cons]
      by_cases hk : dayKey e = k0
      · have hK1 : ∀ k ∈ K1, recordsOfDay (e :: t) k = recordsOfDay t k := by
          intro k hkm
          rw [recordsOfDay_cons,
            if_neg (fun h => hn.1 ((hk.symm.trans h) ▸ hkm))]
        rw [recordsOfDay_cons, if_pos hk, List.map_congr_left hK1,
          List.cons_append]
      · have hd1 : dayKey e ∈ K1 := by
          rcases List.mem_cons.mp hd with h | h
          · exact absurd h hk
          · exact h
        rw [recordsOfDay_cons, if_neg hk]
        exact ((ih hn.2 hd1).append_left _).trans List.perm_middle

theorem flatten_recordsOfDay_perm (l : List Expense) (K : List Nat)
    (hn : K.Nodup) (hc : ∀ e ∈ l, dayKey e ∈ K) :
    ((K.map (recordsOfDay l)).flatten).Perm l := by
  induction l with
  | nil =>
      have : K.map (recordsOfDay []) = K.map fun _ => ([] : List Expense) :=
        List.map_congr_left fun k _ => rfl
      rw [this]
      have : ∀ J : List Nat,
          (J.map fun _ => ([] : List Expense)).flatten = [] := by
        intro J
        induction J with
        | nil => rfl
        | cons j J ihJ => simp [ihJ]
      rw [this]
  | cons e t ih =>
      refine (flatten_recordsOfDay_cons e t K hn
        (hc e (List.mem_cons_self _ _))).trans ?_
      exact (ih fun x hx => hc x (List.mem_cons_of_mem _ hx)).cons e

theorem firstIdx_filter_lt_iff (xs : List Nat) (c a b : Nat)
    (ha : a ≠ c) (hb : b ≠ c) :
    (firstIdx a (xs.filter fun x => x != c) <
        firstIdx b (xs.filter fun x => x != c) ↔
      firstIdx a xs < firstIdx b xs) := by
  induction xs with
  | nil => simp
  | cons x t ih =>
      by_cases hxc : x = c
      · subst hxc
        have hfil : (x :: t).filter (fun y => y != x) =
            t.filter fun y => y != x := by
          simp [List.filter_cons]
        have hxa : x ≠ a := fun h => ha h.symm
        have hxb : x ≠ b := fun h => hb h.symm
        rw [hfil, firstIdx, firstIdx, if_neg hxa, if_neg hxb,
          Nat.succ_lt_succ_iff]
        exact ih
      · have hfil : (x :: t).filter (fun y => y != c) =
            x :: t.filter fun y => y != c := by
          simp [List.filter_cons, bne_iff_ne, hxc]
        rw [hfil]
        by_cases hxa : x = a
        · by_cases hxb : x = b
          · rw [firstIdx, firstIdx, if_pos hxa, if_pos hxb,
              firstIdx, firstIdx, if_pos hxa, if_pos hxb]
          · rw [firstIdx, firstIdx, if_pos hxa, if_neg hxb,
              firstIdx, firstIdx, if_pos hxa, if_neg hxb]
            simp [Nat.succ_pos]
        · by_cases hxb : x = b
          · rw [firstIdx, firstIdx, if_neg hxa, if_pos hxb,
              firstIdx, firstIdx, if_neg hxa, if_pos hxb]
            simp
          · rw [firstIdx, firstIdx, if_neg hxa, if_neg hxb,
              firstIdx, firstIdx, if_neg hxa, if_neg hxb,
              Nat.succ_lt_succ_iff, Nat.succ_lt_succ_iff]
            exact ih

theorem firstIdx_firstSeen_lt_iff (xs : List Nat) (a b : Nat)
    (ha : a ∈ xs) (hb : b ∈ xs) :
    (firstIdx a (firstSeen xs) < firstIdx b (firstSeen xs) ↔
      firstIdx a xs < firstIdx b xs) := by
  induction xs using firstSeen.induct with
  | case1 => cases ha
  | case2 k ks ih =>
      rw [firstSeen]
      by_cases hka : k = a
      · by_cases hkb : k = b
        · rw [firstIdx, firstIdx, if_pos hka, if_pos hkb,
            firstIdx, firstIdx, if_pos hka, if_pos hkb]
        · rw [firstIdx, firstIdx, if_pos hka, if_neg hkb,
            firstIdx, firstIdx, if_pos hka, if_neg hkb]
          simp [Nat.succ_pos]
      · by_cases hkb : k = b
        · rw [firstIdx, firstIdx, if_neg hka, if_pos hkb,
            firstIdx, firstIdx, if_neg hka, if_pos hkb]
          simp
        · have hat : a ∈ ks := by
            rcases List.mem_cons.mp ha with h | h
            · exact absurd h.symm hka
            · exact h
          have hbt : b ∈ ks := by
            rcases List.mem_cons.mp hb with h | h
            · exact absurd h.symm hkb
            · exact h
          have hak : a ≠ k := fun h => hka h.symm
          have hbk : b ≠ k := fun h => hkb h.symm
          have haf : a ∈ ks.filter fun x => x != k := by
            simp [List.mem_filter, bne_iff_ne, hat, hak]
          have hbf : b ∈ ks.filter fun x => x != k := by
            simp [List.mem_filter, bne_iff_ne, hbt, hbk]
          rw [firstIdx, firstIdx, if_neg hka, if_neg hkb,
            firstIdx, firstIdx, if_neg hka, if_neg hkb,
            Nat.succ_lt_succ_iff, Nat.succ_lt_succ_iff]
          exact (ih haf hbf).trans
            (firstIdx_filter_lt_iff ks k a b
              (fun h => hka h.symm) fun h => hkb h.symm)

/-- Sample records: two on one calendar day (10:00 and 18:00 UTC of day
100 after the epoch), one on the following day (09:00 of day 101). -/
def eA : Expense := ⟨1, 7, 3, "coffee", 20, 8676000000⟩

def eB : Expense := ⟨2, 7, 3, "lunch", 30, 8704800000⟩

def eC : Expense := ⟨3, 7, 4, "book", 5, 8758800000⟩

def exList : List Expense := [eA, eB, eC]

/-- C1.  For every list of expense records, each day-bucket produced by
the `GET /` aggregation carries a `total_expense` equal to the arithmetic
sum of the `amount` fields of the input records whose derived day key is
that bucket's key, and this per-day total is the same for every
permutation of the input list. -/
theorem getAll_day_total_eq_sum_of_amounts
    (l l2 : List Expense) (g g2 : DayGroup) (hp : l.Perm l2)
    (hg : g ∈ getAllData l) (hg2 : g2 ∈ getAllData l2)
    (hk : g.date_of_expenses = g2.date_of_expenses) :
    g.total_expense = sumAmounts (recordsOfDay l g.date_of_expenses) ∧
      g.total_expense = g2.total_expense := by
  rw [getAllData_eq] at hg hg2
  rcases List.mem_map.mp hg with ⟨k, hkK, rfl⟩
  rcases List.mem_map.mp hg2 with ⟨k2, hkK2, rfl⟩
  dsimp at hk ⊢
  subst hk
  refine ⟨rfl, ?_⟩
  unfold sumAmounts
  exact ((hp.filter _).map Expense.amount).sum_eq

theorem getAll_day_total_eq_sum_of_amounts_witness :
    (⟨100, 50, [eB, eA]⟩ : DayGroup).total_expense =
        sumAmounts (recordsOfDay exList 100) ∧
      (⟨100, 50, [eB, eA]⟩ : DayGroup).total_expense =
        (⟨100, 50, [eB, eA]⟩ : DayGroup).total_expense :=
  getAll_day_total_eq_sum_of_amounts exList exList
    ⟨100, 50, [eB, eA]⟩ ⟨100, 50, [eB, eA]⟩
    (List.Perm.refl _) (by decide) (by decide) rfl

/-- C2.  The `GET /` aggregation partitions its input: the output day keys
are pairwise distinct, a record belongs to a bucket exactly when it is an
input record whose day key is that bucket's key, and the concatenation of
all buckets' records is a permutation (multiset equality) of the input. -/
theorem getAll_partitions_input (l : List Expense) :
    (((getAllData l).map DayGroup.data_expenses).flatten).Perm l ∧
      ((getAllData l).map DayGroup.date_of_expenses).Nodup ∧
      ∀ g ∈ getAllData l, ∀ e : Expense,
        e ∈ g.data_expenses ↔ (e ∈ l ∧ dayKey e = g.date_of_expenses) := by
  refine ⟨?_, ?_, ?_⟩
  · rw [getAllData_eq, List.map_map]
    have hstep :
        ((firstSeen (l.map dayKey)).map
          (DayGroup.data_expenses ∘ fun k =>
            (⟨k, sumAmounts (recordsOfDay l k),
              List.insertionSort dateGE (recordsOfDay l k)⟩ : DayGroup))) =
          (firstSeen (l.map dayKey)).map fun k =>
            List.insertionSort dateGE (recordsOfDay l k) := rfl
    rw [hstep]
    refine (flatten_map_perm _ _ (recordsOfDay l)
      fun k _ => List.perm_insertionSort _ _).trans ?_
    exact flatten_recordsOfDay_perm l _ (nodup_firstSeen _)
      fun e he => (mem_firstSeen _ _).mpr (List.mem_map.mpr ⟨e, he, rfl⟩)
  · rw [getAllData_eq, List.map_map]
    have hstep :
        ((firstSeen (l.map dayKey)).map
          (DayGroup.date_of_expenses ∘ fun k =>
            (⟨k, sumAmounts (recordsOfDay l k),
              List.insertionSort dateGE (recordsOfDay l k)⟩ : DayGroup))) =
          firstSeen (l.map dayKey) := List.map_id _
    rw [hstep]
    exact nodup_firstSeen _
  · intro g hg e
    rw [getAllData_eq] at hg
    rcases List.mem_map.mp hg with ⟨k, hkK, rfl⟩
    dsimp
    rw [(List.perm_insertionSort dateGE _).mem_iff]
    simp [recordsOfDay, List.mem_filter]

theorem getAll_partitions_input_witness :
    (((getAllData exList).map DayGroup.data_expenses).flatten).Perm exList ∧
      ((getAllData exList).map DayGroup.date_of_expenses).Nodup ∧
      (eA ∈ (⟨100, 50, [eB, eA]⟩ : DayGroup).data_expenses ↔
        (eA ∈ exList ∧ dayKey eA = (⟨100, 50, [eB, eA]⟩ :
          DayGroup).date_of_expenses)) :=
  ⟨(getAll_partitions_input exList).1,
    (getAll_partitions_input exList).2.1,
    (getAll_partitions_input exList).2.2
      ⟨100, 50, [eB, eA]⟩ (by decide) eA⟩

/-- C3.  Whatever the order of the input list, the records inside each
output day-bucket are sorted descending by their full `date_of_expense`
timestamp (ties allowed in either order). -/
theorem getAll_bucket_sorted_desc (l : List Expense) (g : DayGroup)
    (hg : g ∈ getAllData l) :
    g.data_expenses.Pairwise
      fun a b => b.date_of_expense ≤ a.date_of_expense := by
  rw [getAllData_eq] at hg
  rcases List.mem_map.mp hg with ⟨k, hkK, rfl⟩
  exact List.sorted_insertionSort dateGE (recordsOfDay l k)

theorem getAll_bucket_sorted_desc_witness :
    ([eB, eA] : List Expense).Pairwise
      (fun a b => b.date_of_expense ≤ a.date_of_expense) :=
  getAll_bucket_sorted_desc exList ⟨100, 50, [eB, eA]⟩ (by decide)

/-- C4.  Day-buckets appear in the `GET /` response in first-seen order of
their day keys: for two day keys present in the output, the bucket of `k1`
precedes the bucket of `k2` exactly when the first input record with day
key `k1` precedes the first input record with day key `k2`. -/
theorem getAll_buckets_in_first_seen_order (l : List Expense) (k1 k2 : Nat)
    (h1 : k1 ∈ (getAllData l).map DayGroup.date_of_expenses)
    (h2 : k2 ∈ (getAllData l).map DayGroup.date_of_expenses) :
    (firstIdx k1 ((getAllData l).map DayGroup.date_of_expenses) <
        firstIdx k2 ((getAllData l).map DayGroup.date_of_expenses) ↔
      firstIdx k1 (l.map dayKey) < firstIdx k2 (l.map dayKey)) := by
  have hmap : (getAllData l).map DayGroup.date_of_expenses =
      firstSeen (l.map dayKey) := by
    rw [getAllData_eq, List.map_map]
    exact List.map_id _
  rw [hmap] at h1 h2 ⊢
  exact firstIdx_firstSeen_lt_iff (l.map dayKey) k1 k2
    ((mem_firstSeen _ _).mp h1) ((mem_firstSeen _ _).mp h2)

theorem getAll_buckets_in_first_seen_order_witness :
    (firstIdx 100 ((getAllData exList).map DayGroup.date_of_expenses) <
        firstIdx 101 ((getAllData exList).map DayGroup.date_of_expenses) ↔
      firstIdx 100 (exList.map dayKey) < firstIdx 101 (exList.map dayKey)) :=
  getAll_buckets_in_first_seen_order exList 100 101 (by decide) (by decide)

/-! ### The current-month window (lines 11-18) -/

/-- Gregorian leap-year rule, as `Date` implements it. -/
def isLeapYear (y : Nat) : Bool :=
  (y % 4 == 0 && y % 100 != 0) || y % 400 == 0

def daysInYear (y : Nat) : Nat :=
  if isLeapYear y then 366 else 365

/-- Length of the zero-based month `m` (`0` = January) of year `y`. -/
def daysInMonth (y : Nat) : Nat → Nat
  | 0 => 31
  | 1 => if isLeapYear y then 29 else 28
  | 2 => 31
  | 3 => 30
  | 4 => 31
  | 5 => 30
  | 6 => 31
  | 7 => 31
  | 8 => 30
  | 9 => 31
  | 10 => 30
  | _ => 31

/-- Days from the epoch (1970-01-01) to the first day of year `y`
(years at or before 1970 truncate to zero; the model covers `y ≥ 1970`). -/
def daysToYear (y : Nat) : Nat :=
  (List.range (y - 1970)).foldl (fun acc i => acc + daysInYear (1970 + i)) 0

/-- Days from the first day of year `y` to the first day of its zero-based
month `m`. -/
def daysToMonth (y m : Nat) : Nat :=
  (List.range m).foldl (fun acc i => acc + daysInMonth y i) 0

/-- `new Date(y, m, 1).getTime()` for a zero-based month index `m`, which
`Date` normalizes past 11 by rolling into later years (line 14 passes
`now.getMonth() + 1`, which is 12 in December). -/
def monthStartMs (y m : Nat) : Nat :=
  (daysToYear (y + m / 12) + daysToMonth (y + m / 12) (m % 12)) * msPerDay

/-- The pair destructured on line 18. -/
structure DateRange where
  startOfMonth : Nat
  endOfMonth : Nat
deriving DecidableEq, Repr

/-- Lines 11-16: `startOfMonth` is the first instant of the month the
clock shows, and `endOfMonth` is `new Date(year, month + 1, 1)` — the
first instant of the **next** month. -/
def getCurrentMonthDateRange (nowYear nowMonth : Nat) : DateRange :=
  ⟨monthStartMs nowYear nowMonth, monthStartMs nowYear (nowMonth + 1)⟩

/-- Line 23: the `Expense.find` condition of `GET /` — the caller's
records with `date_of_expense` satisfying `$gte startOfMonth` and
`$lte endOfMonth` (both inclusive). -/
def currentMonthFilter (r : DateRange) (uid : Nat) (e : Expense) : Bool :=
  e.user_id == uid &&
    (decide (r.startOfMonth ≤ e.date_of_expense) &&
      decide (e.date_of_expense ≤ r.endOfMonth))

/-- The month window the spec describes: the record's day lies between the
first and the last day of the month, both inclusive — for timestamps, at
least the first instant of the month and strictly before the first
instant of the next month. -/
def specMonthWindow (y m : Nat) (e : Expense) : Prop :=
  monthStartMs y m ≤ e.date_of_expense ∧
    e.date_of_expense < monthStartMs y (m + 1)

instance (y m : Nat) (e : Expense) : Decidable (specMonthWindow y m e) :=
  inferInstanceAs (Decidable (monthStartMs y m ≤ e.date_of_expense ∧
    e.date_of_expense < monthStartMs y (m + 1)))

theorem daysToYear_succ (y : Nat) (hy : 1970 ≤ y) :
    daysToYear (y + 1) = daysToYear y + daysInYear y := by
  rw [daysToYear, daysToYear]
  have h1 : y + 1 - 1970 = (y - 1970) + 1 := by omega
  have h2 : 1970 + (y - 1970) = y := by omega
  rw [h1, List.range_succ, List.foldl_append, List.foldl_cons,
    List.foldl_nil, h2]

theorem daysToMonth_succ (y m : Nat) :
    daysToMonth y (m + 1) = daysToMonth y m + daysInMonth y m := by
  rw [daysToMonth, daysToMonth, List.range_succ, List.foldl_append,
    List.foldl_cons, List.foldl_nil]

theorem daysToMonth_eleven_le (y : Nat) :
    daysToMonth y 11 ≤ daysInYear y := by
  have h11 : List.range 11 = [0, 1, 2, 3, 4, 5, 6, 7, 8, 9, 10] := rfl
  rw [daysToMonth, h11]
  simp only [List.foldl_cons, List.foldl_nil, daysInMonth]
  cases h : isLeapYear y <;> simp [daysInYear, h]

theorem monthStartMs_le_succ (y m : Nat) (hy : 1970 ≤ y) :
    monthStartMs y m ≤ monthStartMs y (m + 1) := by
  by_cases hr : m % 12 < 11
  · have h1 : (m + 1) / 12 = m / 12 := by omega
    have h2 : (m + 1) % 12 = m % 12 + 1 := by omega
    rw [monthStartMs, monthStartMs, h1, h2, daysToMonth_succ]
    exact Nat.mul_le_mul_right _ (by omega)
  · have hr11 : m % 12 = 11 := by omega
    have h1 : (m + 1) / 12 = m / 12 + 1 := by omega
    have h2 : (m + 1) % 12 = 0 := by omega
    rw [monthStartMs, monthStartMs, h1, h2, hr11]
    have hA : daysToMonth (y + (m / 12 + 1)) 0 = 0 := rfl
    rw [hA, ← Nat.add_assoc,
      daysToYear_succ (y + m / 12) (by omega), Nat.add_zero]
    refine Nat.mul_le_mul_right _ ?_
    exact Nat.add_le_add_left (daysToMonth_eleven_le _) _

/-- A record stamped exactly at the first instant of April 2024, owned by
user 7. -/
def eApr : Expense := ⟨21, 7, 3, "rent", 100, monthStartMs 2024 3⟩

/-- A record stamped at 10:00 UTC on 2024-03-01, owned by user 7. -/
def eMar : Expense := ⟨22, 7, 3, "groceries", 40,
  monthStartMs 2024 2 + 36000000⟩

set_option maxRecDepth 40000 in
/-- C5 fails on the code: with the clock in March 2024 (zero-based month
2), the `GET /` query's `$lte endOfMonth` condition also selects a record
stamped exactly at the first instant of April 2024, which lies outside the
closed first-day-to-last-day window of the current month. -/
theorem currentMonth_filter_counterexample :
    currentMonthFilter (getCurrentMonthDateRange 2024 2) 7 eApr = true ∧
      ¬ specMonthWindow 2024 2 eApr := by
  decide

/-- C5 as amended.  The `GET /` query selects exactly the caller's records
whose timestamp is in the **closed** interval from the first instant of
the current month to the first instant of the next month: the current
month's records plus any record stamped exactly at the next month's first
instant. -/
theorem currentMonth_filter_amended (y m uid : Nat) (e : Expense)
    (hy : 1970 ≤ y) :
    (currentMonthFilter (getCurrentMonthDateRange y m) uid e = true ↔
      (e.user_id = uid ∧
        (specMonthWindow y m e ∨
          e.date_of_expense = monthStartMs y (m + 1)))) := by
  have hle := monthStartMs_le_succ y m hy
  simp only [currentMonthFilter, getCurrentMonthDateRange, specMonthWindow,
    Bool.and_eq_true, beq_iff_eq, decide_eq_true_eq]
  constructor
  · rintro ⟨h1, h2, h3⟩
    exact ⟨h1, by omega⟩
  · rintro ⟨h1, h2⟩
    refine ⟨h1, ?_, ?_⟩ <;> rcases h2 with h2 | h2 <;> omega

set_option maxRecDepth 40000 in
theorem currentMonth_filter_amended_witness :
    currentMonthFilter (getCurrentMonthDateRange 2024 2) 7 eMar = true :=
  (currentMonth_filter_amended 2024 2 7 eMar (by decide)).mpr (by decide)

/-! ### Handler outcomes (status code and payload) -/

/-- Lines 27-33 and 52-55 of `GET /`: a 404 with empty data when the
query returned nothing, otherwise a 200 with the day-grouped aggregate. -/
def getAllHandler (expenses : List Expense) : Nat × List DayGroup :=
  if expenses.length = 0 then (404, []) else (200, getAllData expenses)

/-- Lines 74-85 of `GET /month/:month`: a 404 with empty data when the
query returned nothing, otherwise a 200 with the raw sorted records. -/
def getMonthHandler (expenses : List Expense) : Nat × List Expense :=
  if expenses.length = 0 then (404, []) else (200, expenses)

/-- C6.  On both listing routes an empty query result yields a 404, and a
200 success response never carries an empty record list. -/
theorem empty_result_is_not_found (l : List Expense) :
    (l = [] → (getAllHandler l).1 = 404 ∧ (getMonthHandler l).1 = 404) ∧
      ((getAllHandler l).1 = 200 → (getAllHandler l).2 ≠ []) ∧
      ((getMonthHandler l).1 = 200 → (getMonthHandler l).2 ≠ []) := by
  cases l with
  | nil =>
      refine ⟨fun _ => ⟨rfl, rfl⟩, ?_, ?_⟩ <;> intro h <;>
        simp [getAllHandler, getMonthHandler] at h
  | cons e t =>
      refine ⟨?_, ?_, ?_⟩
      · intro h
        exact absurd h (List.cons_ne_nil e t)
      · intro _
        have hne : (e :: t).length ≠ 0 := by simp
        have h2 : (getAllHandler (e :: t)).2 = getAllData (e :: t) := by
          simp [getAllHandler]
        rw [h2, getAllData_eq, List.map_cons, firstSeen]
        simp
      · intro _
        simp [getMonthHandler]

theorem empty_result_is_not_found_witness :
    (getAllHandler []).1 = 404 ∧
      (getAllHandler exList).2 ≠ [] ∧
      (getMonthHandler exList).2 ≠ [] :=
  ⟨((empty_result_is_not_found []).1 rfl).1,
    (empty_result_is_not_found exList).2.1 (by decide),
    (empty_result_is_not_found exList).2.2 (by decide)⟩

/-! ### The module-level month window (C9) -/

/-- Line 18: `const (startOfMonth, endOfMonth) = getCurrentMonthDateRange()`
is evaluated exactly once, when the module loads, from the clock read at
that moment. -/
def moduleDateRange (startYear startMonth : Nat) : DateRange :=
  getCurrentMonthDateRange startYear startMonth

/-- The query issued by a `GET /` request served while the wall clock
reads `(reqYear, reqMonth)`, in a process whose module loaded while the
clock read `(startYear, startMonth)`: line 23 closes over the module-level
range and never re-reads the clock, so the request-time arguments are
dead. -/
def getAllQuery (startYear startMonth _reqYear _reqMonth uid : Nat)
    (db : List Expense) : DateRange × List Expense :=
  (moduleDateRange startYear startMonth,
    db.filter (currentMonthFilter (moduleDateRange startYear startMonth) uid))

/-- C9.  Every `GET /` request of a process lifetime queries with the very
`startOfMonth` and `endOfMonth` computed when the module loaded: the
issued query is the same whatever the wall clock reads at request time,
and its window is the startup month's window. -/
theorem getAll_window_fixed_at_startup
    (sy sm r1y r1m r2y r2m uid : Nat) (db : List Expense) :
    getAllQuery sy sm r1y r1m uid db = getAllQuery sy sm r2y r2m uid db ∧
      (getAllQuery sy sm r1y r1m uid db).1 =
        getCurrentMonthDateRange sy sm :=
  ⟨rfl, rfl⟩

/-! ### The PATCH pipeline (lines 156-207) -/

/-- A category document: an id and a nullable owner (`created_by: null`
marks a globally shared category). -/
structure Category where
  cid : Nat
  created_by : Option Nat
deriving DecidableEq, Repr

/-- The mutable fields a `PATCH /:id` body may carry.  `amount` is a JSON
number and `expense_name` a string; `date_of_expense` and `category_id`
arrive as strings that are non-empty whenever meaningful, so for them
presence models truthiness. -/
structure UpdateBody where
  amount : Option Int
  expense_name : Option String
  date_of_expense : Option Nat
  category_id : Option Nat
deriving DecidableEq, Repr

/-- JavaScript truthiness of a possibly absent number: absent
(`undefined`) and `0` are falsy. -/
def truthyAmount : Option Int → Bool
  | none => false
  | some n => decide (n ≠ 0)

/-- JavaScript truthiness of a possibly absent string: absent and the
empty string are falsy. -/
def truthyName : Option String → Bool
  | none => false
  | some s => decide (s ≠ "")

/-- Truthiness of a field that is a non-empty string whenever present. -/
def truthyRef {α : Type} : Option α → Bool
  | none => false
  | some _ => true

/-- Line 165: `!body.amount && !body.expense_name && !body.date_of_expense
&& !body.category_id` negated — at least one mutable field is truthy. -/
def hasAnyField (b : UpdateBody) : Bool :=
  truthyAmount b.amount || truthyName b.expense_name ||
    truthyRef b.date_of_expense || truthyRef b.category_id

/-- Lines 128 and 172: the category filter
`(_id: cid, $or: [(created_by: uid), (created_by: null)])`. -/
def categoryVisible (cats : List Category) (uid cid : Nat) : Bool :=
  cats.any fun c =>
    c.cid == cid && (c.created_by == some uid || c.created_by == none)

/-- Modelled from the spec: the Expense data model (spec section 3) — the
expense schema file is not among the sources — declares no `created_by`
field on expense documents, so the clause `(created_by: v)` of the
`findOneAndUpdate` filter on line 186 compares `v` against a missing
path: the store matches a missing path only against the null literal (and
a query layer configured to strip unknown paths drops the clause
entirely, with the same net effect on the filter below). -/
def expenseCreatedByMatches (_e : Expense) (v : Option Nat) : Bool :=
  match v with
  | none => true
  | some _ => false

/-- Line 186: the `findOneAndUpdate` filter of `PATCH /:id`,
`(_id: id, $or: [(created_by: req.user._id), (created_by: null)])`. -/
def patchMatchFilter (e : Expense) (tid uid : Nat) : Bool :=
  e.eid == tid &&
    (expenseCreatedByMatches e (some uid) || expenseCreatedByMatches e none)

/-- Lines 97 and 212: the `findOne` / `findOneAndDelete` filter of
`GET /:id` and `DELETE /:id`, `(_id: id, user_id: req.user._id)`. -/
def findOneFilter (e : Expense) (tid uid : Nat) : Bool :=
  e.eid == tid && e.user_id == uid

/-- The scope the claim attributes to `PATCH /:id`: the expense is owned
by the caller, or its linked category is globally shared. -/
def claimedPatchScope (cats : List Category) (e : Expense)
    (tid uid : Nat) : Bool :=
  e.eid == tid &&
    (e.user_id == uid ||
      cats.any fun c => c.cid == e.category_id && c.created_by == none)

/-- The outcome of a `PATCH /:id` request past schema validation. -/
inductive PatchResult where
  | noFieldsError
  | categoryNotFound
  | expenseNotFound
  | success (updated : Expense)
deriving DecidableEq, Repr

/-- The HTTP status each outcome is sent with (lines 167, 175, 192, 197). -/
def statusOf : PatchResult → Nat
  | .noFieldsError => 400
  | .categoryNotFound => 400
  | .expenseNotFound => 404
  | .success _ => 200

/-- Lines 181-189: `(...body, updated_at: new Date())` passed to
`findOneAndUpdate` sets every field present in the body (store-managed
timestamps are not carried by this model). -/
def applyUpdate (e : Expense) (b : UpdateBody) : Expense :=
  { e with
    amount := b.amount.getD e.amount
    expense_name := b.expense_name.getD e.expense_name
    date_of_expense := b.date_of_expense.getD e.date_of_expense
    category_id := b.category_id.getD e.category_id }

/-- Lines 165-207 of `PATCH /:id`, after schema validation: the
at-least-one-truthy-field check, the conditional category lookup, then
`findOneAndUpdate`.  The boolean records whether the store update call
(line 186) was reached. -/
def patchHandler (cats : List Category) (db : List Expense)
    (uid tid : Nat) (b : UpdateBody) : PatchResult × Bool :=
  if hasAnyField b = false then
    (.noFieldsError, false)
  else if truthyRef b.category_id &&
      !(categoryVisible cats uid (b.category_id.getD 0)) then
    (.categoryNotFound, false)
  else
    match db.find? fun e => patchMatchFilter e tid uid with
    | none => (.expenseNotFound, true)
    | some e => (.success (applyUpdate e b), true)

/-- C7.  A `PATCH /:id` body containing none of the four mutable fields is
answered 400 (`at least one field must be filled`) and the store update is
never attempted, whatever the stores contain. -/
theorem patch_no_mutable_fields_400 (cats : List Category)
    (db : List Expense) (uid tid : Nat) (b : UpdateBody)
    (h1 : b.amount = none) (h2 : b.expense_name = none)
    (h3 : b.date_of_expense = none) (h4 : b.category_id = none) :
    patchHandler cats db uid tid b = (.noFieldsError, false) ∧
      statusOf (patchHandler cats db uid tid b).1 = 400 := by
  have hf : hasAnyField b = false := by
    rw [hasAnyField, h1, h2, h3, h4]
    rfl
  simp [patchHandler, hf, statusOf]

theorem patch_no_mutable_fields_400_witness :
    patchHandler [] [] 7 1 ⟨none, none, none, none⟩ =
        (.noFieldsError, false) ∧
      statusOf (patchHandler [] [] 7 1 ⟨none, none, none, none⟩).1 = 400 :=
  patch_no_mutable_fields_400 [] [] 7 1 ⟨none, none, none, none⟩
    rfl rfl rfl rfl

/-- C10.  A `PATCH /:id` body whose only supplied mutable field is falsy —
`amount: 0`, or `expense_name: ""` — is rejected exactly like an empty
body: 400 `at least one field must be filled`, no store update, because
line 165 tests truthiness rather than key presence. -/
theorem patch_falsy_field_rejected (cats : List Category)
    (db : List Expense) (uid tid : Nat) (b : UpdateBody)
    (h : (b.amount = some 0 ∧ b.expense_name = none ∧
            b.date_of_expense = none ∧ b.category_id = none) ∨
         (b.amount = none ∧ b.expense_name = some "" ∧
            b.date_of_expense = none ∧ b.category_id = none)) :
    patchHandler cats db uid tid b = (.noFieldsError, false) ∧
      statusOf (patchHandler cats db uid tid b).1 = 400 := by
  have hf : hasAnyField b = false := by
    rcases h with ⟨h1, h2, h3, h4⟩ | ⟨h1, h2, h3, h4⟩ <;>
      rw [hasAnyField, h1, h2, h3, h4] <;> decide
  simp [patchHandler, hf, statusOf]

theorem patch_falsy_field_rejected_witness :
    patchHandler [] [] 7 1 ⟨some 0, none, none, none⟩ =
        (.noFieldsError, false) ∧
      statusOf (patchHandler [] [] 7 1 ⟨some 0, none, none, none⟩).1 =
        400 :=
  patch_falsy_field_rejected [] [] 7 1 ⟨some 0, none, none, none⟩
    (Or.inl ⟨rfl, rfl, rfl, rfl⟩)

/-- An expense of user 2 linked to category 5. -/
def ePriv : Expense := ⟨10, 2, 5, "spa", 7, 8676000000⟩

/-- Category 5, privately owned by user 2 (not globally shared). -/
def catPriv : Category := ⟨5, some 2⟩

/-- C8 fails on the code: caller 1 patching expense 10 — owned by user 2
and linked to user 2's private category — is matched by the
`findOneAndUpdate` filter, although the claimed owner-or-global-category
scope excludes it; the read/delete filter indeed excludes it. -/
theorem patch_scope_counterexample :
    patchMatchFilter ePriv 10 1 = true ∧
      claimedPatchScope [catPriv] ePriv 10 1 = false ∧
      findOneFilter ePriv 10 1 = false := by
  decide

/-- C8 as amended.  The `PATCH /:id` filter matches any expense with the
requested id, regardless of owner and of category sharing — its
`created_by` clause is vacuous on expense documents — whereas `GET /:id`
and `DELETE /:id` match exactly the expenses with the requested id owned
by the caller. -/
theorem patch_scope_amended (e : Expense) (tid uid : Nat) :
    (patchMatchFilter e tid uid = true ↔ e.eid = tid) ∧
      (findOneFilter e tid uid = true ↔
        (e.eid = tid ∧ e.user_id = uid)) := by
  constructor
  · simp [patchMatchFilter, expenseCreatedByMatches]
  · simp [findOneFilter]

end SpendTrack
